import Mathlib

/-!
Shallow embedding of `src/ARPlanes.js` (three.ar.js): the `ARPlanes`
scene-graph component that mirrors device-reported planes into renderable
geometry, together with its three event handlers.

Modelling conventions:
* JS numbers are only moved around by this code, never computed with, so
  scalar values are modelled by `Int`.
* `getRandomPaletteColor` (imported from `ARUtils`, outside the modelled
  file) is modelled as reading successive colors from an ambient supply
  `Nat → Color`; the state's `drawCount` records how many draws happened.
* JS object identity (each `new Object3D()` and each `material.clone()`
  is a fresh object) is modelled by a `tag` drawn from a freshness counter.
* A JS `Map` is modelled as an association list in insertion order with
  unique keys, as maintained by `mapSet` / `mapDelete`.
-/

abbrev Scalar := Int

abbrev Color := Nat

/-- The scene-graph matrix: 16 elements stored in column-major order, as in
the rendering library used by the source. -/
structure Matrix4 where
  elements : List Scalar
deriving DecidableEq, Repr

/-- The rendering library's `Matrix4.set`: takes the sixteen entries in
row-major argument order and stores them in column-major order. -/
def Matrix4.set16 (n11 n12 n13 n14 n21 n22 n23 n24 n31 n32 n33 n34 n41 n42 n43 n44 : Scalar) : Matrix4 :=
  ⟨[n11, n21, n31, n41, n12, n22, n32, n42, n13, n23, n33, n43, n14, n24, n34, n44]⟩

/-- A material: the uniforms of the source's `RawShaderMaterial`, plus a
`matTag` modelling the identity of the JS material object. The two
fractional uniforms are fixed constants that are only copied, never
computed with, so they are stored scaled to integers: `dotRadiusPico` is
the dot radius times 10^12 and `alphaPercent` the alpha times 100. -/
structure Material where
  dotColor : Nat
  lineColor : Nat
  backgroundColor : Color
  dotRadiusPico : Nat
  alphaPercent : Nat
  matTag : Nat
deriving DecidableEq, Repr

/-- The source's `DEFAULT_MATERIAL` uniform values (dotRadius
0.006666666667 and alpha 0.4, scaled as described on `Material`). -/
def DEFAULT_MATERIAL : Material :=
  { dotColor := 0xffffff
    lineColor := 0x707070
    backgroundColor := 0x404040
    dotRadiusPico := 6666666667
    alphaPercent := 40
    matTag := 0 }

/-- `DEFAULT_MATERIAL.clone()` followed by overwriting the
`backgroundColor` uniform; the clone is a fresh object, so it gets a fresh
`matTag`. -/
def Material.cloneWith (m : Material) (color : Color) (t : Nat) : Material :=
  { m with backgroundColor := color, matTag := t }

/-- A device-reported plane: opaque identifier, flat vertex list
(x,y,z triples) and a 16-entry column-major model matrix. -/
structure Plane where
  identifier : String
  vertices : List Scalar
  modelMatrix : List Scalar
deriving DecidableEq, Repr

/-- The renderable built by `createPlane`: an `Object3D` (identity `tag`,
`matrixAutoUpdate` flag, fixed local `matrix`) holding a mesh with the
triangulated geometry and its material. -/
structure PlaneObj where
  tag : Nat
  matrixAutoUpdate : Bool
  matrix : Matrix4
  meshVertices : List (Scalar × Scalar × Scalar)
  meshFaces : List (Nat × Nat × Nat)
  material : Material
deriving DecidableEq, Repr

/-- `Map.get`: value of the first entry with the given key. -/
def mapGet {β : Type} : List (String × β) → String → Option β
  | [], _ => none
  | kv :: rest, k => if kv.1 = k then some kv.2 else mapGet rest k

/-- `Map.has`. -/
def mapHas {β : Type} : List (String × β) → String → Bool
  | [], _ => false
  | kv :: rest, k => kv.1 == k || mapHas rest k

/-- `Map.set`: replace the value in place if the key is present, otherwise
append a new entry (JS `Map` keeps insertion order). -/
def mapSet {β : Type} (m : List (String × β)) (k : String) (v : β) : List (String × β) :=
  if mapHas m k then m.map (fun kv => if kv.1 = k then (k, v) else kv) else m ++ [(k, v)]

/-- `Map.delete`: drop the entry with the given key (keys are unique in a
JS `Map`, and `mapSet` preserves that). -/
def mapDelete {β : Type} : List (String × β) → String → List (String × β)
  | [], _ => []
  | kv :: rest, k => if kv.1 = k then mapDelete rest k else kv :: mapDelete rest k

/-- `Object3D.remove(child)`: detach the first child identical to the given
object (JS finds it by reference via `indexOf`). -/
def removeChild : List PlaneObj → PlaneObj → List PlaneObj
  | [], _ => []
  | c :: rest, obj => if c = obj then rest else c :: removeChild rest obj

/-- The mutable state of an `ARPlanes` instance: the scene-graph children
of the `Object3D`, the `planes` map, the `materialMap`, plus the freshness
counter for object identities and the count of palette-color draws. -/
structure ARPlanesState where
  children : List PlaneObj
  planes : List (String × PlaneObj)
  materialMap : List (String × Material)
  nextTag : Nat
  drawCount : Nat
deriving DecidableEq, Repr

/-- A fresh `ARPlanes` instance: empty children, empty maps. -/
def initialState : ARPlanesState :=
  { children := [], planes := [], materialMap := [], nextTag := 0, drawCount := 0 }

/-- The identifiers currently tracked in the `planes` map. -/
def trackedIds (s : ARPlanesState) : List String :=
  s.planes.map (fun kv => kv.1)

/-- The source's `update()` observability hook: `this.planes.size`. -/
def ARPlanesState.update (s : ARPlanesState) : Nat :=
  s.planes.length

/-- `createPlane(plane)`: returns `none` (JS `null`) for an empty vertex
list; otherwise builds a fresh `Object3D` with `matrixAutoUpdate = false`,
the model matrix applied via `Matrix4.set`, the vertex triples, a triangle
fan, and a material that is either the one stored in `materialMap` for this
identifier or a fresh clone with a newly drawn palette color (recorded in
`materialMap`). The JS vertex loop runs for `pt < vertices.length / 3` with
real division, i.e. `ceil(length / 3)` iterations; out-of-range reads
(possible only for a length that is not a multiple of 3, where JS would
yield `undefined`) are modelled as `0`. -/
def createPlane (supply : Nat → Color) (s : ARPlanesState) (p : Plane) :
    Option PlaneObj × ARPlanesState :=
  if p.vertices.length = 0 then (none, s)
  else
    let mm := p.modelMatrix
    let matrix := Matrix4.set16
      (mm.getD 0 0) (mm.getD 4 0) (mm.getD 8 0) (mm.getD 12 0)
      (mm.getD 1 0) (mm.getD 5 0) (mm.getD 9 0) (mm.getD 13 0)
      (mm.getD 2 0) (mm.getD 6 0) (mm.getD 10 0) (mm.getD 14 0)
      (mm.getD 3 0) (mm.getD 7 0) (mm.getD 11 0) (mm.getD 15 0)
    let meshVertices := (List.range ((p.vertices.length + 2) / 3)).map
      (fun pt => (p.vertices.getD (pt * 3) 0, p.vertices.getD (pt * 3 + 1) 0,
                  p.vertices.getD (pt * 3 + 2) 0))
    let meshFaces := (List.range (meshVertices.length - 2)).map
      (fun face => (0, face + 1, face + 2))
    match mapGet s.materialMap p.identifier with
    | some material =>
        (some { tag := s.nextTag, matrixAutoUpdate := false, matrix := matrix,
                meshVertices := meshVertices, meshFaces := meshFaces,
                material := material },
         { s with nextTag := s.nextTag + 1 })
    | none =>
        let material := DEFAULT_MATERIAL.cloneWith (supply s.drawCount) s.drawCount
        (some { tag := s.nextTag, matrixAutoUpdate := false, matrix := matrix,
                meshVertices := meshVertices, meshFaces := meshFaces,
                material := material },
         { s with nextTag := s.nextTag + 1, drawCount := s.drawCount + 1,
                  materialMap := mapSet s.materialMap p.identifier material })

/-- `addPlane(plane)`: if `createPlane` produced an object, attach it as a
scene-graph child and record it in the `planes` map. -/
def addPlane (supply : Nat → Color) (s : ARPlanesState) (p : Plane) : ARPlanesState :=
  match createPlane supply s p with
  | (some planeObj, s1) =>
      { s1 with children := s1.children ++ [planeObj],
                planes := mapSet s1.planes p.identifier planeObj }
  | (none, s1) => s1

/-- `removePlane(identifier)`: if the `planes` map has an entry, detach its
renderable from the children; then delete the map entry. The
`materialMap` is not touched. -/
def removePlane (s : ARPlanesState) (identifier : String) : ARPlanesState :=
  let s1 :=
    match mapGet s.planes identifier with
    | some existing => { s with children := removeChild s.children existing }
    | none => s
  { s1 with planes := mapDelete s1.planes identifier }

/-- The body of the `planesupdated` loop for one plane:
`removePlane(plane.identifier)` then `addPlane(plane)`. -/
def updatePlane (supply : Nat → Color) (s : ARPlanesState) (p : Plane) : ARPlanesState :=
  addPlane supply (removePlane s p.identifier) p

/-- The `planesadded` handler: `event.planes.forEach(addPlane)`. -/
def handleAdded (supply : Nat → Color) (s : ARPlanesState) (ps : List Plane) : ARPlanesState :=
  ps.foldl (addPlane supply) s

/-- The `planesupdated` handler: for each plane of the batch in order,
`removePlane(plane.identifier)` then `addPlane(plane)`. -/
def handleUpdated (supply : Nat → Color) (s : ARPlanesState) (ps : List Plane) : ARPlanesState :=
  ps.foldl (fun t q => addPlane supply (removePlane t q.identifier) q) s

/-- The `planesremoved` handler: for each plane of the batch in order,
`removePlane(plane.identifier)`. -/
def handleRemoved (s : ARPlanesState) (ps : List Plane) : ARPlanesState :=
  ps.foldl (fun t q => removePlane t q.identifier) s

/-- The three notification kinds subscribed to in the constructor. -/
inductive AREvent where
  | planesAdded (planes : List Plane)
  | planesUpdated (planes : List Plane)
  | planesRemoved (planes : List Plane)
deriving DecidableEq, Repr

/-- Dispatch one notification to its handler. -/
def processEvent (supply : Nat → Color) (s : ARPlanesState) : AREvent → ARPlanesState
  | .planesAdded ps => handleAdded supply s ps
  | .planesUpdated ps => handleUpdated supply s ps
  | .planesRemoved ps => handleRemoved s ps

/-- Process a finite sequence of notifications in order. -/
def processEvents (supply : Nat → Color) (s : ARPlanesState) (events : List AREvent) : ARPlanesState :=
  events.foldl (processEvent supply) s

/-- A well-formed notification: every plane carried by an add or update
batch has a non-empty vertex list (the data model describes `vertices` as a
polygon boundary; an empty list is the malformed case the spec treats
separately). -/
def AREvent.wellFormed : AREvent → Prop
  | .planesAdded ps => ∀ p ∈ ps, p.vertices ≠ []
  | .planesUpdated ps => ∀ p ∈ ps, p.vertices ≠ []
  | .planesRemoved _ => True

instance (e : AREvent) : Decidable e.wellFormed := by
  cases e <;> dsimp [AREvent.wellFormed] <;> infer_instance

/-- Modelled from the spec: one step of the spec-level tracking status of a
single identifier. An add or update batch that mentions the identifier
marks it present, a removal batch that mentions it marks it absent; other
batches leave the status unchanged. -/
def specStep (id : String) (b : Bool) : AREvent → Bool
  | .planesAdded ps => ps.any (fun p => p.identifier == id) || b
  | .planesUpdated ps => ps.any (fun p => p.identifier == id) || b
  | .planesRemoved ps => !(ps.any (fun p => p.identifier == id)) && b

/-- Modelled from the spec: the testable property "the set of tracked
identifiers equals the set of identifiers that have been added (or re-added
after update) and not subsequently removed", evaluated for one identifier
by folding `specStep` over the notification sequence. -/
def specTracked (events : List AREvent) (id : String) : Bool :=
  events.foldl (specStep id) false

/-- The scene-graph consistency invariant: the children are exactly the
renderables recorded in the `planes` map (in order), map keys are unique,
renderable identities are unique, and every recorded identity predates the
freshness counter. -/
def GoodState (s : ARPlanesState) : Prop :=
  s.children = s.planes.map (fun kv => kv.2)
  ∧ (s.planes.map (fun kv => kv.1)).Nodup
  ∧ (s.planes.map (fun kv => kv.2.tag)).Nodup
  ∧ ∀ kv ∈ s.planes, kv.2.tag < s.nextTag

/-- A deterministic color supply for concrete evaluations. -/
def supplyTest : Nat → Color := fun n => n + 100

/-- A concrete 3-vertex plane used in concrete evaluations. -/
def pTest : Plane :=
  { identifier := "p1", vertices := [0, 0, 0, 1, 0, 0, 1, 0, 1],
    modelMatrix := List.replicate 16 0 }

/-- A concrete 4-vertex plane (the quad of the spec's Scenario A). -/
def pQuad : Plane :=
  { identifier := "p1", vertices := [0, 0, 0, 1, 0, 0, 1, 0, 1, 0, 0, 1],
    modelMatrix := List.replicate 16 0 }

/-- A concrete plane with an empty vertex list (malformed input case). -/
def pEmpty : Plane :=
  { identifier := "p1", vertices := [], modelMatrix := List.replicate 16 0 }

/-- A concrete second plane with a distinct identifier. -/
def pOther : Plane :=
  { identifier := "p2", vertices := [2, 0, 0, 3, 0, 0, 3, 0, 1],
    modelMatrix := List.replicate 16 0 }

theorem mapGet_eq_none_iff_mapHas {β : Type} (m : List (String × β)) (k : String) :
    mapGet m k = none ↔ mapHas m k = false := by
  induction m with
  | nil => simp [mapGet, mapHas]
  | cons kv rest ih =>
    by_cases hk : kv.1 = k
    · simp [mapGet, mapHas, hk]
    · simp [mapGet, mapHas, hk, ih]

theorem mapHas_iff_mem_keys {β : Type} (m : List (String × β)) (k : String) :
    mapHas m k = true ↔ k ∈ m.map (fun kv => kv.1) := by
  induction m with
  | nil => simp [mapHas]
  | cons kv rest ih =>
    rw [mapHas]
    simp only [List.map_cons, List.mem_cons, Bool.or_eq_true, beq_iff_eq, ih]
    constructor
    · rintro (h1 | hm)
      · exact Or.inl h1.symm
      · exact Or.inr hm
    · rintro (h1 | hm)
      · exact Or.inl h1.symm
      · exact Or.inr hm

theorem keys_map_replace {β : Type} (m : List (String × β)) (k : String) (v : β) :
    (m.map (fun kv => if kv.1 = k then (k, v) else kv)).map (fun kv => kv.1)
      = m.map (fun kv => kv.1) := by
  induction m with
  | nil => rfl
  | cons kv rest ih => by_cases hk : kv.1 = k <;> simp [hk, ih]

theorem mem_keys_mapSet {β : Type} (m : List (String × β)) (k : String) (v : β) (id : String) :
    id ∈ (mapSet m k v).map (fun kv => kv.1) ↔ id = k ∨ id ∈ m.map (fun kv => kv.1) := by
  unfold mapSet
  by_cases h : mapHas m k
  · rw [if_pos h, keys_map_replace]
    have hk := (mapHas_iff_mem_keys m k).mp h
    constructor
    · exact fun hm => Or.inr hm
    · rintro (rfl | hm)
      · exact hk
      · exact hm
  · rw [if_neg h]
    simp [or_comm]

theorem mem_keys_mapDelete {β : Type} (m : List (String × β)) (k id : String) :
    id ∈ (mapDelete m k).map (fun kv => kv.1) ↔ id ∈ m.map (fun kv => kv.1) ∧ id ≠ k := by
  induction m with
  | nil => simp [mapDelete]
  | cons kv rest ih =>
    by_cases hk : kv.1 = k
    · rw [mapDelete, if_pos hk]
      rw [ih]
      subst hk
      simp only [List.map_cons, List.mem_cons]
      constructor
      · rintro ⟨hm, hne⟩
        exact ⟨Or.inr hm, hne⟩
      · rintro ⟨(rfl | hm), hne⟩
        · exact absurd rfl hne
        · exact ⟨hm, hne⟩
    · rw [mapDelete, if_neg hk]
      simp only [List.map_cons, List.mem_cons, ih]
      constructor
      · rintro (rfl | ⟨hm, hne⟩)
        · exact ⟨Or.inl rfl, fun he => hk (he ▸ rfl)⟩
        · exact ⟨Or.inr hm, hne⟩
      · rintro ⟨(rfl | hm), hne⟩
        · exact Or.inl rfl
        · exact Or.inr ⟨hm, hne⟩

theorem mapGet_mapSet_self {β : Type} (m : List (String × β)) (k : String) (v : β) :
    mapGet (mapSet m k v) k = some v := by
  unfold mapSet
  by_cases h : mapHas m k
  · rw [if_pos h]
    induction m with
    | nil => simp [mapHas] at h
    | cons kv rest ih =>
      by_cases hk : kv.1 = k
      · simp [mapGet, hk]
      · have h2 : mapHas rest k = true := by simpa [mapHas, hk] using h
        simp [mapGet, hk, ih h2]
  · rw [if_neg h]
    induction m with
    | nil => simp [mapGet]
    | cons kv rest ih =>
      have hk : ¬(kv.1 = k) := by
        intro he
        simp [mapHas, he] at h
      have h2 : ¬(mapHas rest k = true) := by
        intro he
        simp [mapHas, he] at h
      simp [mapGet, hk, ih h2]

theorem mapGet_map_replace_ne {β : Type} (m : List (String × β)) (k : String) (v : β)
    (k2 : String) (h : k2 ≠ k) :
    mapGet (m.map (fun kv => if kv.1 = k then (k, v) else kv)) k2 = mapGet m k2 := by
  induction m with
  | nil => rfl
  | cons kv rest ih =>
    by_cases hk : kv.1 = k
    · simp [mapGet, hk, Ne.symm h, ih]
    · by_cases hk2 : kv.1 = k2 <;> simp [mapGet, hk, hk2, h, ih]

theorem mapGet_append_single_ne {β : Type} (m : List (String × β)) (k : String) (v : β)
    (k2 : String) (h : k2 ≠ k) :
    mapGet (m ++ [(k, v)]) k2 = mapGet m k2 := by
  induction m with
  | nil => simp [mapGet, Ne.symm h]
  | cons kv rest ih =>
    by_cases hk2 : kv.1 = k2 <;> simp [mapGet, hk2, ih]

theorem mapGet_mapSet_ne {β : Type} (m : List (String × β)) (k : String) (v : β)
    (k2 : String) (h : k2 ≠ k) :
    mapGet (mapSet m k v) k2 = mapGet m k2 := by
  unfold mapSet
  by_cases hh : mapHas m k
  · rw [if_pos hh]
    exact mapGet_map_replace_ne m k v k2 h
  · rw [if_neg hh]
    exact mapGet_append_single_ne m k v k2 h

theorem mapGet_mapDelete_self {β : Type} (m : List (String × β)) (k : String) :
    mapGet (mapDelete m k) k = none := by
  induction m with
  | nil => rfl
  | cons kv rest ih =>
    by_cases hk : kv.1 = k <;> simp [mapDelete, mapGet, hk, ih]

theorem mapGet_mapDelete_ne {β : Type} (m : List (String × β)) (k k2 : String) (h : k2 ≠ k) :
    mapGet (mapDelete m k) k2 = mapGet m k2 := by
  induction m with
  | nil => rfl
  | cons kv rest ih =>
    by_cases hk : kv.1 = k
    · simp [mapDelete, mapGet, hk, Ne.symm h, ih]
    · by_cases hk2 : kv.1 = k2 <;> simp [mapDelete, mapGet, hk, hk2, h, ih]

theorem mapDelete_of_get_none {β : Type} (m : List (String × β)) (k : String)
    (h : mapGet m k = none) : mapDelete m k = m := by
  induction m with
  | nil => rfl
  | cons kv rest ih =>
    by_cases hk : kv.1 = k
    · rw [mapGet, if_pos hk] at h
      cases h
    · rw [mapGet, if_neg hk] at h
      rw [mapDelete, if_neg hk, ih h]

theorem removePlane_of_get_none (s : ARPlanesState) (id : String)
    (h : mapGet s.planes id = none) : removePlane s id = s := by
  unfold removePlane
  rw [h]
  simp [mapDelete_of_get_none s.planes id h]

theorem mapGet_removePlane_self (s : ARPlanesState) (id : String) :
    mapGet (removePlane s id).planes id = none := by
  unfold removePlane
  cases h : mapGet s.planes id <;> simp [mapGet_mapDelete_self]

theorem addPlane_empty (supply : Nat → Color) (s : ARPlanesState) (p : Plane)
    (h : p.vertices = []) : addPlane supply s p = s := by
  have h0 : p.vertices.length = 0 := by simp [h]
  simp [addPlane, createPlane, h0]

/-- Claim C8: `remove` is idempotent, and removing an unknown identifier is
a no-op: for every registry state and identifier, a second consecutive
`removePlane` leaves the state exactly as after the first, and
`removePlane` on an identifier with no tracked entry returns the state
unchanged. -/
theorem c8_remove_idempotent (s : ARPlanesState) (id : String) :
    removePlane (removePlane s id) id = removePlane s id
    ∧ (mapGet s.planes id = none → removePlane s id = s) :=
  ⟨removePlane_of_get_none _ _ (mapGet_removePlane_self s id),
   fun h => removePlane_of_get_none s id h⟩

/-- Witness for C8 at a concrete state tracking "p1": removing the unknown
identifier "zz" is a no-op and double removal of "p1" equals single
removal. -/
theorem c8_remove_idempotent_witness :
    removePlane (removePlane (addPlane supplyTest initialState pTest) "p1") "p1"
      = removePlane (addPlane supplyTest initialState pTest) "p1"
    ∧ removePlane (addPlane supplyTest initialState pTest) "zz"
      = addPlane supplyTest initialState pTest :=
  ⟨(c8_remove_idempotent (addPlane supplyTest initialState pTest) "p1").1,
   (c8_remove_idempotent (addPlane supplyTest initialState pTest) "zz").2 (by decide)⟩

/-- Claim C7: an upsert of a plane with an empty vertex list is a silent
no-op: `createPlane` signals "no geometry" (`none`) and `addPlane` returns
the state unchanged, so no entry is created and any existing entry for the
identifier is untouched. -/
theorem c7_empty_vertices_noop (supply : Nat → Color) (s : ARPlanesState) (p : Plane)
    (h : p.vertices = []) :
    createPlane supply s p = (none, s) ∧ addPlane supply s p = s := by
  have h0 : p.vertices.length = 0 := by simp [h]
  exact ⟨by simp [createPlane, h0], addPlane_empty supply s p h⟩

/-- Witness for C7: upserting the empty-vertex plane onto a state that
already tracks "p1" changes nothing. -/
theorem c7_empty_vertices_witness :
    createPlane supplyTest (addPlane supplyTest initialState pTest) pEmpty
      = (none, addPlane supplyTest initialState pTest)
    ∧ addPlane supplyTest (addPlane supplyTest initialState pTest) pEmpty
      = addPlane supplyTest initialState pTest :=
  c7_empty_vertices_noop supplyTest (addPlane supplyTest initialState pTest) pEmpty rfl

/-- Claim C6: the `planesupdated` handler processes the batch in device
order and, for each plane, performs exactly `removePlane(identifier)`
followed by `addPlane(plane)`: it equals the fold of the per-plane
composite `updatePlane`, and processing a batch first handles its head
plane by remove-then-upsert and then the rest. -/
theorem c6_updated_handler (supply : Nat → Color) (s : ARPlanesState) (p : Plane)
    (ps : List Plane) :
    handleUpdated supply s ps = ps.foldl (updatePlane supply) s
    ∧ handleUpdated supply s (p :: ps)
      = handleUpdated supply (addPlane supply (removePlane s p.identifier) p) ps :=
  ⟨rfl, rfl⟩

/-- Claim C4: triangulation. If the flat vertex list encodes `n` 3D points
(length `3 * n`), then `createPlane` signals "no geometry" exactly when
`n = 0`, and otherwise the built mesh's face list is the triangle fan
`(0, face + 1, face + 2)` for `face` from `0` to `n - 3`, hence exactly
`n - 2` triangles for `n ≥ 3` and `0` triangles for `n < 3`. -/
theorem c4_triangle_fan (supply : Nat → Color) (s : ARPlanesState) (p : Plane) (n : Nat)
    (h : p.vertices.length = 3 * n) :
    ((createPlane supply s p).1 = none ↔ n = 0)
    ∧ ∀ obj, (createPlane supply s p).1 = some obj →
        obj.meshFaces = (List.range (n - 2)).map (fun face => (0, face + 1, face + 2))
        ∧ obj.meshFaces.length = n - 2 := by
  by_cases hn : n = 0
  · subst hn
    have h0 : p.vertices.length = 0 := by simpa using h
    simp [createPlane, h0]
  · have h0 : ¬(p.vertices.length = 0) := by
      rw [h]
      exact fun he => hn (by omega)
    have hpts : (p.vertices.length + 2) / 3 = n := by
      rw [h]
      omega
    unfold createPlane
    rw [if_neg h0]
    cases hmm : mapGet s.materialMap p.identifier <;> simp [hpts, hn]

/-- Witness for C4 at the spec's Scenario A quad: 12 scalars encode 4
points and the fan is exactly the two triangles (0,1,2) and (0,2,3). -/
theorem c4_triangle_fan_witness :
    pQuad.vertices.length = 3 * 4
    ∧ (createPlane supplyTest initialState pQuad).1.map (fun obj => obj.meshFaces)
      = some [(0, 1, 2), (0, 2, 3)] := by
  have hth := c4_triangle_fan supplyTest initialState pQuad 4 (by decide)
  refine ⟨by decide, ?_⟩
  cases hr : (createPlane supplyTest initialState pQuad).1 with
  | none => exact absurd (hth.1.mp hr) (by decide)
  | some obj =>
    have hfan := (hth.2 obj hr).1
    simp only [Option.map_some']
    rw [hfan]
    decide

theorem getD_sixteen_eq (l : List Scalar) (h : l.length = 16) :
    [l[0]?.getD 0, l[1]?.getD 0, l[2]?.getD 0, l[3]?.getD 0,
     l[4]?.getD 0, l[5]?.getD 0, l[6]?.getD 0, l[7]?.getD 0,
     l[8]?.getD 0, l[9]?.getD 0, l[10]?.getD 0, l[11]?.getD 0,
     l[12]?.getD 0, l[13]?.getD 0, l[14]?.getD 0, l[15]?.getD 0] = l := by
  rcases l with _ | ⟨a0, l⟩
  · simp at h
  rcases l with _ | ⟨a1, l⟩
  · simp at h
  rcases l with _ | ⟨a2, l⟩
  · simp at h
  rcases l with _ | ⟨a3, l⟩
  · simp at h
  rcases l with _ | ⟨a4, l⟩
  · simp at h
  rcases l with _ | ⟨a5, l⟩
  · simp at h
  rcases l with _ | ⟨a6, l⟩
  · simp at h
  rcases l with _ | ⟨a7, l⟩
  · simp at h
  rcases l with _ | ⟨a8, l⟩
  · simp at h
  rcases l with _ | ⟨a9, l⟩
  · simp at h
  rcases l with _ | ⟨a10, l⟩
  · simp at h
  rcases l with _ | ⟨a11, l⟩
  · simp at h
  rcases l with _ | ⟨a12, l⟩
  · simp at h
  rcases l with _ | ⟨a13, l⟩
  · simp at h
  rcases l with _ | ⟨a14, l⟩
  · simp at h
  rcases l with _ | ⟨a15, l⟩
  · simp at h
  rcases l with _ | ⟨a16, l⟩
  · rfl
  · simp at h

/-- Claim C9: for a plane with non-empty vertices, the builder produces a
renderable whose automatic matrix recomputation is disabled
(`matrixAutoUpdate = false`) and whose local matrix holds the 16-float
device array element by element (the `Matrix4.set` call transposes the
row-major argument order back onto the column-major storage, so the stored
elements equal the device array exactly); the matrix is never decomposed
into position/rotation/scale. -/
theorem c9_matrix_fixed_transform (supply : Nat → Color) (s : ARPlanesState) (p : Plane)
    (hv : p.vertices ≠ []) (hm : p.modelMatrix.length = 16) :
    ((createPlane supply s p).1.isSome = true)
    ∧ ∀ obj, (createPlane supply s p).1 = some obj →
        obj.matrixAutoUpdate = false ∧ obj.matrix.elements = p.modelMatrix := by
  have h0 : ¬(p.vertices.length = 0) := by
    simpa [List.length_eq_zero] using hv
  unfold createPlane
  rw [if_neg h0]
  cases hmm : mapGet s.materialMap p.identifier <;>
    (simp [Matrix4.set16]
     exact getD_sixteen_eq p.modelMatrix hm)

/-- Witness for C9 at a concrete plane: the built renderable has
`matrixAutoUpdate = false` and its matrix elements equal the device
array. -/
theorem c9_matrix_witness :
    pTest.vertices.isEmpty = false
    ∧ pTest.modelMatrix.length = 16
    ∧ (createPlane supplyTest initialState pTest).1.map
        (fun obj => (obj.matrixAutoUpdate, obj.matrix.elements))
      = some (false, pTest.modelMatrix) := by
  have hth := c9_matrix_fixed_transform supplyTest initialState pTest (by decide) (by decide)
  refine ⟨by decide, by decide, ?_⟩
  cases hr : (createPlane supplyTest initialState pTest).1 with
  | none => rw [hr] at hth; exact absurd hth.1 (by decide)
  | some obj =>
    have h2 := hth.2 obj hr
    simp [h2.1, h2.2]

/-- Claim C1 evaluation at the failing input add "p1", remove "p1",
add "p1": `removePlane` leaves the `materialMap` entry for "p1" in place
(the claim and the source's own leak comment say it should be deleted), so
the re-add finds a stored color, performs no fresh palette draw, and
reuses the old material instead of re-executing the "no stored color"
branch. -/
theorem c1_remove_keeps_color_assignment :
    mapGet (removePlane (addPlane supplyTest initialState pTest) "p1").materialMap "p1"
      = mapGet (addPlane supplyTest initialState pTest).materialMap "p1"
    ∧ (mapGet (removePlane (addPlane supplyTest initialState pTest) "p1").materialMap "p1").isSome
      = true
    ∧ (addPlane supplyTest (removePlane (addPlane supplyTest initialState pTest) "p1") pTest).drawCount
      = (addPlane supplyTest initialState pTest).drawCount
    ∧ (mapGet (addPlane supplyTest (removePlane (addPlane supplyTest initialState pTest) "p1") pTest).planes
        "p1").map (fun obj => obj.material)
      = mapGet (addPlane supplyTest initialState pTest).materialMap "p1" := by
  decide

/-- Counterexample to claim C2 as stated: upserting "p1" a second time via
a bare `addPlane` does not detach the prior renderable. After two
`addPlane` calls for "p1", the scene graph holds both renderables (tags 0
and 1), while the `planes` map points only at the new one (tag 1) — the
renderable with tag 0 is dangling; after the first call alone the map held
the tag-0 renderable. -/
theorem c2_upsert_leaves_prior_attached :
    (addPlane supplyTest (addPlane supplyTest initialState pTest) pTest).children.map
      (fun obj => obj.tag) = [0, 1]
    ∧ (addPlane supplyTest (addPlane supplyTest initialState pTest) pTest).planes.map
      (fun kv => (kv.1, kv.2.tag)) = [("p1", 1)]
    ∧ (mapGet (addPlane supplyTest initialState pTest).planes "p1").map
      (fun obj => obj.tag) = some 0 := by
  decide

theorem addPlane_nonempty (supply : Nat → Color) (s : ARPlanesState) (p : Plane)
    (h : p.vertices ≠ []) :
    ∃ obj, mapGet (addPlane supply s p).planes p.identifier = some obj
      ∧ mapGet (addPlane supply s p).materialMap p.identifier = some obj.material
      ∧ ∀ m, mapGet s.materialMap p.identifier = some m →
          obj.material = m
          ∧ (addPlane supply s p).drawCount = s.drawCount
          ∧ (addPlane supply s p).materialMap = s.materialMap := by
  have h0 : ¬(p.vertices.length = 0) := by
    simpa [List.length_eq_zero] using h
  unfold addPlane createPlane
  rw [if_neg h0]
  cases hmm : mapGet s.materialMap p.identifier with
  | some m0 =>
    dsimp only
    refine ⟨_, mapGet_mapSet_self _ _ _, ?_, ?_⟩
    · simpa using hmm
    · intro m hm
      cases hm
      exact ⟨rfl, rfl, rfl⟩
  | none =>
    dsimp only
    refine ⟨_, mapGet_mapSet_self _ _ _, ?_, ?_⟩
    · simpa using mapGet_mapSet_self s.materialMap p.identifier _
    · intro m hm
      exact Option.noConfusion hm

/-- Claim C5: consecutive upserts for the same identifier reuse the stored
color assignment. If `upsert(p)` is followed by `upsert(q)` with
`q.identifier = p.identifier` (both with non-empty vertices) and no
intervening removal of the color assignment, the material applied to the
second renderable equals the material applied to the first, and no new
palette color is drawn for the second upsert. -/
theorem c5_color_reuse (supply : Nat → Color) (s : ARPlanesState) (p q : Plane)
    (hid : q.identifier = p.identifier) (hp : p.vertices ≠ []) (hq : q.vertices ≠ []) :
    ∃ o1 o2,
      mapGet (addPlane supply s p).planes p.identifier = some o1
      ∧ mapGet (addPlane supply (addPlane supply s p) q).planes p.identifier = some o2
      ∧ o2.material = o1.material
      ∧ (addPlane supply (addPlane supply s p) q).drawCount
        = (addPlane supply s p).drawCount := by
  obtain ⟨o1, h1p, h1m, _⟩ := addPlane_nonempty supply s p hp
  obtain ⟨o2, h2p, h2m, h2r⟩ := addPlane_nonempty supply (addPlane supply s p) q hq
  rw [hid] at h2p h2m h2r
  obtain ⟨hmat, hdc, _⟩ := h2r o1.material h1m
  exact ⟨o1, o2, h1p, h2p, hmat, hdc⟩

/-- Witness for C5: adding pTest then pQuad (both identifier "p1"), the
second renderable's material equals the first's and the palette draw count
does not increase. -/
theorem c5_color_reuse_witness :
    (mapGet (addPlane supplyTest (addPlane supplyTest initialState pTest) pQuad).planes
        pTest.identifier).map (fun obj => obj.material)
      = (mapGet (addPlane supplyTest initialState pTest).planes pTest.identifier).map
        (fun obj => obj.material)
    ∧ (addPlane supplyTest (addPlane supplyTest initialState pTest) pQuad).drawCount
      = (addPlane supplyTest initialState pTest).drawCount := by
  obtain ⟨o1, o2, h1, h2, hmat, hdc⟩ :=
    c5_color_reuse supplyTest initialState pTest pQuad rfl (by decide) (by decide)
  refine ⟨?_, hdc⟩
  rw [h1, h2]
  simp [hmat]

theorem mem_trackedIds_addPlane (supply : Nat → Color) (s : ARPlanesState) (p : Plane)
    (id : String) (h : p.vertices ≠ []) :
    id ∈ trackedIds (addPlane supply s p) ↔ id = p.identifier ∨ id ∈ trackedIds s := by
  have h0 : ¬(p.vertices.length = 0) := by
    simpa [List.length_eq_zero] using h
  unfold addPlane createPlane trackedIds
  rw [if_neg h0]
  cases hmm : mapGet s.materialMap p.identifier <;> dsimp only <;>
    exact mem_keys_mapSet _ _ _ _

theorem mem_trackedIds_removePlane (s : ARPlanesState) (k id : String) :
    id ∈ trackedIds (removePlane s k) ↔ id ∈ trackedIds s ∧ id ≠ k := by
  unfold removePlane trackedIds
  cases h : mapGet s.planes k <;> dsimp only <;> exact mem_keys_mapDelete _ _ _

theorem mem_trackedIds_updatePlane (supply : Nat → Color) (s : ARPlanesState) (p : Plane)
    (id : String) (h : p.vertices ≠ []) :
    id ∈ trackedIds (updatePlane supply s p) ↔ id = p.identifier ∨ id ∈ trackedIds s := by
  unfold updatePlane
  rw [mem_trackedIds_addPlane supply _ p id h, mem_trackedIds_removePlane s p.identifier id]
  constructor
  · rintro (h1 | ⟨hs, _⟩)
    · exact Or.inl h1
    · exact Or.inr hs
  · rintro (h1 | hs)
    · exact Or.inl h1
    · by_cases hid : id = p.identifier
      · exact Or.inl hid
      · exact Or.inr ⟨hs, hid⟩

theorem mem_trackedIds_handleAdded (supply : Nat → Color) (ps : List Plane) (id : String) :
    ∀ s : ARPlanesState, (∀ p ∈ ps, p.vertices ≠ []) →
      (id ∈ trackedIds (handleAdded supply s ps)
        ↔ (∃ p ∈ ps, p.identifier = id) ∨ id ∈ trackedIds s) := by
  induction ps with
  | nil =>
    intro s _
    simp [handleAdded]
  | cons p rest ih =>
    intro s hwf
    have hstep := mem_trackedIds_addPlane supply s p id (hwf p (by simp))
    have hrest := ih (addPlane supply s p) (fun q hq => hwf q (by simp [hq]))
    rw [show handleAdded supply s (p :: rest)
          = handleAdded supply (addPlane supply s p) rest from rfl]
    rw [hrest, hstep]
    constructor
    · rintro (⟨q, hq, hqid⟩ | (rfl | hs))
      · exact Or.inl ⟨q, by simp [hq], hqid⟩
      · exact Or.inl ⟨p, by simp, rfl⟩
      · exact Or.inr hs
    · rintro (⟨q, hq, hqid⟩ | hs)
      · rcases List.mem_cons.mp hq with rfl | hq2
        · exact Or.inr (Or.inl hqid.symm)
        · exact Or.inl ⟨q, hq2, hqid⟩
      · exact Or.inr (Or.inr hs)

theorem mem_trackedIds_handleUpdated (supply : Nat → Color) (ps : List Plane) (id : String) :
    ∀ s : ARPlanesState, (∀ p ∈ ps, p.vertices ≠ []) →
      (id ∈ trackedIds (handleUpdated supply s ps)
        ↔ (∃ p ∈ ps, p.identifier = id) ∨ id ∈ trackedIds s) := by
  induction ps with
  | nil =>
    intro s _
    simp [handleUpdated]
  | cons p rest ih =>
    intro s hwf
    have hstep := mem_trackedIds_updatePlane supply s p id (hwf p (by simp))
    have hrest := ih (updatePlane supply s p) (fun q hq => hwf q (by simp [hq]))
    rw [show handleUpdated supply s (p :: rest)
          = handleUpdated supply (updatePlane supply s p) rest from rfl]
    rw [hrest, hstep]
    constructor
    · rintro (⟨q, hq, hqid⟩ | (rfl | hs))
      · exact Or.inl ⟨q, by simp [hq], hqid⟩
      · exact Or.inl ⟨p, by simp, rfl⟩
      · exact Or.inr hs
    · rintro (⟨q, hq, hqid⟩ | hs)
      · rcases List.mem_cons.mp hq with rfl | hq2
        · exact Or.inr (Or.inl hqid.symm)
        · exact Or.inl ⟨q, hq2, hqid⟩
      · exact Or.inr (Or.inr hs)

theorem mem_trackedIds_handleRemoved (ps : List Plane) (id : String) :
    ∀ s : ARPlanesState, id ∈ trackedIds (handleRemoved s ps)
      ↔ id ∈ trackedIds s ∧ ∀ p ∈ ps, p.identifier ≠ id := by
  induction ps with
  | nil =>
    intro s
    simp [handleRemoved]
  | cons p rest ih =>
    intro s
    rw [show handleRemoved s (p :: rest)
          = handleRemoved (removePlane s p.identifier) rest from rfl]
    rw [ih, mem_trackedIds_removePlane]
    constructor
    · rintro ⟨⟨hs, hne⟩, hrest⟩
      refine ⟨hs, ?_⟩
      intro q hq
      rcases List.mem_cons.mp hq with rfl | hq2
      · exact fun he => hne he.symm
      · exact hrest q hq2
    · rintro ⟨hs, hall⟩
      exact ⟨⟨hs, fun he => hall p (by simp) he.symm⟩, fun q hq => hall q (by simp [hq])⟩

theorem specStep_iff (supply : Nat → Color) (e : AREvent) (id : String) (s : ARPlanesState)
    (b : Bool) (hwf : e.wellFormed) (hb : id ∈ trackedIds s ↔ b = true) :
    id ∈ trackedIds (processEvent supply s e) ↔ specStep id b e = true := by
  cases e with
  | planesAdded ps =>
    rw [show processEvent supply s (.planesAdded ps) = handleAdded supply s ps from rfl,
        mem_trackedIds_handleAdded supply ps id s hwf, specStep]
    simp only [Bool.or_eq_true, List.any_eq_true, beq_iff_eq]
    rw [hb]
  | planesUpdated ps =>
    rw [show processEvent supply s (.planesUpdated ps) = handleUpdated supply s ps from rfl,
        mem_trackedIds_handleUpdated supply ps id s hwf, specStep]
    simp only [Bool.or_eq_true, List.any_eq_true, beq_iff_eq]
    rw [hb]
  | planesRemoved ps =>
    rw [show processEvent supply s (.planesRemoved ps) = handleRemoved s ps from rfl,
        mem_trackedIds_handleRemoved ps id s, specStep]
    simp only [Bool.and_eq_true, Bool.not_eq_true', List.any_eq_false, beq_iff_eq,
      beq_eq_false_iff_ne]
    rw [hb]
    tauto

theorem mem_processEvents_iff (supply : Nat → Color) (events : List AREvent) (id : String) :
    ∀ (s : ARPlanesState) (b : Bool), (∀ e ∈ events, e.wellFormed) →
      (id ∈ trackedIds s ↔ b = true) →
      (id ∈ trackedIds (processEvents supply s events)
        ↔ events.foldl (specStep id) b = true) := by
  induction events with
  | nil =>
    intro s b _ hb
    exact hb
  | cons e rest ih =>
    intro s b hwf hb
    have hstep := specStep_iff supply e id s b (hwf e (by simp)) hb
    exact ih (processEvent supply s e) (specStep id b e)
      (fun e2 he2 => hwf e2 (by simp [he2])) hstep

/-- Claim C3: for every finite sequence of well-formed add/update/remove
notifications, an identifier is tracked in the registry's entry map after
processing exactly when it was added (or re-added by an update) and not
subsequently removed, as computed by the spec-level fold `specTracked`. -/
theorem c3_tracked_iff_added_not_removed (supply : Nat → Color) (events : List AREvent)
    (id : String) (hwf : ∀ e ∈ events, e.wellFormed) :
    id ∈ trackedIds (processEvents supply initialState events)
      ↔ specTracked events id = true := by
  have h0 : id ∈ trackedIds initialState ↔ false = true := by
    simp [trackedIds, initialState]
  exact mem_processEvents_iff supply events id initialState false hwf h0

/-- A concrete notification sequence: add "p1" and "p2", update "p1",
remove "p2". -/
def evtsTest : List AREvent :=
  [AREvent.planesAdded [pTest, pOther], AREvent.planesUpdated [pQuad],
   AREvent.planesRemoved [pOther]]

/-- Witness for C3 on `evtsTest`: "p1" (added, then re-added by update) is
tracked, matching the spec-level fold, and "p2" (added then removed) is not
tracked by the spec-level fold. -/
theorem c3_tracked_witness :
    ("p1" ∈ trackedIds (processEvents supplyTest initialState evtsTest)
      ↔ specTracked evtsTest "p1" = true)
    ∧ specTracked evtsTest "p1" = true
    ∧ "p1" ∈ trackedIds (processEvents supplyTest initialState evtsTest)
    ∧ specTracked evtsTest "p2" = false := by
  have hiff := c3_tracked_iff_added_not_removed supplyTest evtsTest "p1" (by decide)
  exact ⟨hiff, by decide, hiff.mpr (by decide), by decide⟩

theorem mapGet_addPlane_ne (supply : Nat → Color) (s : ARPlanesState) (p : Plane)
    (X : String) (hX : X ≠ p.identifier) :
    mapGet (addPlane supply s p).planes X = mapGet s.planes X := by
  unfold addPlane createPlane
  by_cases h0 : p.vertices.length = 0
  · rw [if_pos h0]
  · rw [if_neg h0]
    cases hmm : mapGet s.materialMap p.identifier <;> dsimp only <;>
      exact mapGet_mapSet_ne _ _ _ _ hX

theorem mapGet_removePlane_ne (s : ARPlanesState) (k X : String) (hX : X ≠ k) :
    mapGet (removePlane s k).planes X = mapGet s.planes X := by
  unfold removePlane
  cases h : mapGet s.planes k <;> dsimp only <;> exact mapGet_mapDelete_ne _ _ _ hX

theorem untracked_handleUpdated (supply : Nat → Color) (ps : List Plane) (X : String) :
    ∀ s : ARPlanesState, mapGet s.planes X = none →
      (∀ q ∈ ps, q.identifier = X → q.vertices = []) →
      mapGet (handleUpdated supply s ps).planes X = none := by
  induction ps with
  | nil =>
    intro s h _
    exact h
  | cons q rest ih =>
    intro s h hall
    have hstep : mapGet (updatePlane supply s q).planes X = none := by
      by_cases hq : q.identifier = X
      · have hv : q.vertices = [] := hall q (by simp) hq
        rw [updatePlane, addPlane_empty supply _ q hv, hq]
        exact mapGet_removePlane_self s X
      · rw [updatePlane,
            mapGet_addPlane_ne supply _ q X (fun he => hq he.symm),
            mapGet_removePlane_ne s q.identifier X (fun he => hq he.symm)]
        exact h
    rw [show handleUpdated supply s (q :: rest)
          = handleUpdated supply (updatePlane supply s q) rest from rfl]
    exact ih (updatePlane supply s q) hstep (fun r hr hrX => hall r (by simp [hr]) hrX)

/-- Claim C10: a `planesupdated` notification whose batch reports a tracked
identifier X only with empty-vertex planes deletes X's entry (the remove
succeeds and the re-insertion is skipped), so X is no longer tracked after
the notification; in contrast a bare upsert with empty vertices is a no-op
that leaves the existing entry intact. -/
theorem c10_update_empty_deletes_entry (supply : Nat → Color) (s : ARPlanesState)
    (ps : List Plane) (X : String)
    (htracked : (mapGet s.planes X).isSome = true)
    (hall : ∀ q ∈ ps, q.identifier = X → q.vertices = [])
    (hmem : ∃ q ∈ ps, q.identifier = X) :
    mapGet (handleUpdated supply s ps).planes X = none
    ∧ ∀ q : Plane, q.vertices = [] → addPlane supply s q = s := by
  refine ⟨?_, fun q hq => addPlane_empty supply s q hq⟩
  clear htracked
  induction ps generalizing s with
  | nil =>
    obtain ⟨q, hq, _⟩ := hmem
    cases hq
  | cons q rest ih =>
    rw [show handleUpdated supply s (q :: rest)
          = handleUpdated supply (updatePlane supply s q) rest from rfl]
    by_cases hqX : q.identifier = X
    · have hv : q.vertices = [] := hall q (by simp) hqX
      have hafter : mapGet (updatePlane supply s q).planes X = none := by
        rw [updatePlane, addPlane_empty supply _ q hv, hqX]
        exact mapGet_removePlane_self s X
      exact untracked_handleUpdated supply rest X (updatePlane supply s q) hafter
        (fun r hr hrX => hall r (by simp [hr]) hrX)
    · obtain ⟨r, hrmem, hrX⟩ := hmem
      rcases List.mem_cons.mp hrmem with rfl | hr2
      · exact absurd hrX hqX
      · exact ih (updatePlane supply s q)
          (fun t ht htX => hall t (by simp [ht]) htX) ⟨r, hr2, hrX⟩

/-- Witness for C10: with "p1" tracked, an update batch carrying the
empty-vertex plane for "p1" untracks it, while a bare upsert of that plane
changes nothing. -/
theorem c10_update_empty_witness :
    mapGet (handleUpdated supplyTest (addPlane supplyTest initialState pTest)
      [pEmpty]).planes "p1" = none
    ∧ addPlane supplyTest (addPlane supplyTest initialState pTest) pEmpty
      = addPlane supplyTest initialState pTest := by
  have hth := c10_update_empty_deletes_entry supplyTest
    (addPlane supplyTest initialState pTest) [pEmpty] "p1"
    (by decide) (by decide) ⟨pEmpty, by simp, rfl⟩
  exact ⟨hth.1, hth.2 pEmpty rfl⟩

instance (s : ARPlanesState) : Decidable (GoodState s) := by
  unfold GoodState
  infer_instance

theorem mapGet_none_of_not_mem_keys {β : Type} (m : List (String × β)) (k : String)
    (h : k ∉ m.map (fun kv => kv.1)) : mapGet m k = none := by
  rw [mapGet_eq_none_iff_mapHas]
  cases hres : mapHas m k
  · rfl
  · exact absurd ((mapHas_iff_mem_keys m k).mp hres) h

theorem mapGet_mem {β : Type} (m : List (String × β)) (k : String) (v : β)
    (h : mapGet m k = some v) : (k, v) ∈ m := by
  induction m with
  | nil => cases h
  | cons kv rest ih =>
    by_cases hk : kv.1 = k
    · rw [mapGet, if_pos hk] at h
      rcases kv with ⟨a, b⟩
      cases h
      cases hk
      exact List.mem_cons_self _ _
    · rw [mapGet, if_neg hk] at h
      exact List.mem_cons_of_mem _ (ih h)

theorem mapSet_of_get_none {β : Type} (m : List (String × β)) (k : String) (v : β)
    (h : mapGet m k = none) : mapSet m k v = m ++ [(k, v)] := by
  rw [mapGet_eq_none_iff_mapHas] at h
  simp [mapSet, h]

theorem mapDelete_sublist {β : Type} (m : List (String × β)) (k : String) :
    List.Sublist (mapDelete m k) m := by
  induction m with
  | nil => exact List.Sublist.slnil
  | cons kv rest ih =>
    by_cases hk : kv.1 = k
    · rw [mapDelete, if_pos hk]
      exact List.Sublist.cons kv ih
    · rw [mapDelete, if_neg hk]
      exact List.Sublist.cons₂ kv ih

theorem removeChild_values (m : List (String × PlaneObj)) (k : String) (obj : PlaneObj)
    (hget : mapGet m k = some obj)
    (hkeys : (m.map (fun kv => kv.1)).Nodup)
    (htags : (m.map (fun kv => kv.2.tag)).Nodup) :
    removeChild (m.map (fun kv => kv.2)) obj = (mapDelete m k).map (fun kv => kv.2) := by
  induction m with
  | nil => cases hget
  | cons kv rest ih =>
    simp only [List.map_cons] at hkeys htags
    obtain ⟨hknotin, hkeys2⟩ := List.nodup_cons.mp hkeys
    obtain ⟨htnotin, htags2⟩ := List.nodup_cons.mp htags
    by_cases hk : kv.1 = k
    · rw [mapGet, if_pos hk] at hget
      cases hget
      have hrest : mapGet rest k = none :=
        mapGet_none_of_not_mem_keys rest k (by rw [← hk]; exact hknotin)
      rw [show ((kv :: rest).map (fun kv2 => kv2.2))
            = kv.2 :: rest.map (fun kv2 => kv2.2) from rfl]
      rw [show removeChild (kv.2 :: rest.map (fun kv2 => kv2.2)) kv.2
            = rest.map (fun kv2 => kv2.2) by simp [removeChild]]
      rw [show mapDelete (kv :: rest) k = mapDelete rest k by simp [mapDelete, hk]]
      rw [mapDelete_of_get_none rest k hrest]
    · rw [mapGet, if_neg hk] at hget
      have hobj : (k, obj) ∈ rest := mapGet_mem rest k obj hget
      have htagmem : obj.tag ∈ rest.map (fun kv2 => kv2.2.tag) :=
        List.mem_map.mpr ⟨(k, obj), hobj, rfl⟩
      have hne : kv.2 ≠ obj := by
        intro he
        apply htnotin
        rw [he]
        exact htagmem
      rw [show ((kv :: rest).map (fun kv2 => kv2.2))
            = kv.2 :: rest.map (fun kv2 => kv2.2) from rfl]
      rw [show removeChild (kv.2 :: rest.map (fun kv2 => kv2.2)) obj
            = kv.2 :: removeChild (rest.map (fun kv2 => kv2.2)) obj by
          simp [removeChild, hne]]
      rw [show mapDelete (kv :: rest) k = kv :: mapDelete rest k by simp [mapDelete, hk]]
      rw [show ((kv :: mapDelete rest k).map (fun kv2 => kv2.2))
            = kv.2 :: (mapDelete rest k).map (fun kv2 => kv2.2) from rfl]
      rw [ih hget hkeys2 htags2]

theorem removePlane_eq_some (s : ARPlanesState) (k : String) (obj : PlaneObj)
    (h : mapGet s.planes k = some obj) :
    removePlane s k = { s with children := removeChild s.children obj,
                               planes := mapDelete s.planes k } := by
  unfold removePlane
  rw [h]

theorem goodState_removePlane (s : ARPlanesState) (k : String) (h : GoodState s) :
    GoodState (removePlane s k)
    ∧ (removePlane s k).nextTag = s.nextTag
    ∧ ∀ kv ∈ (removePlane s k).planes, kv ∈ s.planes := by
  obtain ⟨hal, hkeys, htags, hlt⟩ := h
  cases hget : mapGet s.planes k with
  | none =>
    rw [removePlane_of_get_none s k hget]
    exact ⟨⟨hal, hkeys, htags, hlt⟩, rfl, fun kv hkv => hkv⟩
  | some obj =>
    rw [removePlane_eq_some s k obj hget]
    have hsub := mapDelete_sublist s.planes k
    refine ⟨⟨?_, ?_, ?_, ?_⟩, rfl, fun kv hkv => hsub.subset hkv⟩
    · rw [hal]
      exact removeChild_values s.planes k obj hget hkeys htags
    · exact hkeys.sublist (List.Sublist.map _ hsub)
    · exact htags.sublist (List.Sublist.map _ hsub)
    · exact fun kv hkv => hlt kv (hsub.subset hkv)

theorem goodState_attach (s : ARPlanesState) (k : String) (obj : PlaneObj)
    (M : List (String × Material)) (nt d : Nat)
    (hgood : GoodState s) (hfresh : mapGet s.planes k = none)
    (htag : obj.tag = s.nextTag) (hnt : s.nextTag < nt) :
    GoodState { children := s.children ++ [obj], planes := mapSet s.planes k obj,
                materialMap := M, nextTag := nt, drawCount := d } := by
  obtain ⟨hal, hkeys, htags, hlt⟩ := hgood
  have hknotin : k ∉ s.planes.map (fun kv => kv.1) := by
    intro hmem
    rw [mapGet_eq_none_iff_mapHas, (mapHas_iff_mem_keys s.planes k).mpr hmem] at hfresh
    cases hfresh
  have hset : mapSet s.planes k obj = s.planes ++ [(k, obj)] :=
    mapSet_of_get_none s.planes k obj hfresh
  refine ⟨?_, ?_, ?_, ?_⟩
  · dsimp only
    rw [hset, List.map_append, hal]
    rfl
  · dsimp only
    rw [hset, List.map_append, List.nodup_append]
    refine ⟨hkeys, List.nodup_singleton k, ?_⟩
    intro x hx hxk
    rw [show ((([(k, obj)] : List (String × PlaneObj)).map (fun kv => kv.1)) = [k]) from rfl,
       List.mem_singleton] at hxk
    subst hxk
    exact hknotin hx
  · dsimp only
    rw [hset, List.map_append, List.nodup_append]
    refine ⟨htags, List.nodup_singleton obj.tag, ?_⟩
    intro x hx hxk
    rw [show ((([(k, obj)] : List (String × PlaneObj)).map (fun kv => kv.2.tag))
          = [obj.tag]) from rfl, List.mem_singleton] at hxk
    subst hxk
    obtain ⟨kv, hkv, hkvtag⟩ := List.mem_map.mp hx
    have hklt := hlt kv hkv
    rw [hkvtag, htag] at hklt
    exact absurd hklt (Nat.lt_irrefl _)
  · dsimp only
    intro kv hkv
    rw [hset] at hkv
    rcases List.mem_append.mp hkv with hold | hnew
    · exact Nat.lt_trans (hlt kv hold) hnt
    · rw [List.mem_singleton] at hnew
      subst hnew
      rw [show ((k, obj).2.tag = obj.tag) from rfl, htag]
      exact hnt

theorem goodState_addPlane (supply : Nat → Color) (s : ARPlanesState) (p : Plane)
    (h : GoodState s) (hfresh : mapGet s.planes p.identifier = none) :
    GoodState (addPlane supply s p) := by
  by_cases h0 : p.vertices.length = 0
  · have heq : addPlane supply s p = s := by
      simp [addPlane, createPlane, h0]
    rw [heq]
    exact h
  · unfold addPlane createPlane
    rw [if_neg h0]
    cases hmm : mapGet s.materialMap p.identifier <;> dsimp only <;>
      exact goodState_attach s p.identifier _ _ _ _ h hfresh rfl (Nat.lt_succ_self _)

theorem not_mem_removeChild_self (l : List PlaneObj) (a : PlaneObj) (h : l.Nodup) :
    a ∉ removeChild l a := by
  induction l with
  | nil => simp [removeChild]
  | cons c rest ih =>
    by_cases hc : c = a
    · subst hc
      rw [removeChild, if_pos rfl]
      exact (List.nodup_cons.mp h).1
    · rw [removeChild, if_neg hc]
      intro hmem
      rcases List.mem_cons.mp hmem with he | hmem2
      · exact hc he.symm
      · exact ih (List.nodup_cons.mp h).2 hmem2

theorem addPlane_children (supply : Nat → Color) (s : ARPlanesState) (p : Plane) :
    (addPlane supply s p).children = s.children
    ∨ ∃ obj, obj.tag = s.nextTag ∧ (addPlane supply s p).children = s.children ++ [obj] := by
  unfold addPlane createPlane
  by_cases h0 : p.vertices.length = 0
  · rw [if_pos h0]
    exact Or.inl rfl
  · rw [if_neg h0]
    cases hmm : mapGet s.materialMap p.identifier <;> dsimp only <;>
      exact Or.inr ⟨_, rfl, rfl⟩

/-- Claim C2, amended: a bare upsert does not itself detach a prior
renderable; the no-dangling guarantee holds for the registry operations the
event adapter actually performs on an already-tracked identifier, namely
remove-then-upsert. On any consistent state (`GoodState`: the scene-graph
children are exactly the tracked renderables, with unique keys and
identities), the per-plane update composite preserves consistency, and the
prior renderable is detached: it is gone from the children after the
remove step and still gone after the re-insertion. -/
theorem c2_no_dangling (supply : Nat → Color) (s : ARPlanesState) (p : Plane)
    (prior : PlaneObj) (hgood : GoodState s)
    (hprior : mapGet s.planes p.identifier = some prior) :
    GoodState (updatePlane supply s p)
    ∧ prior ∉ (removePlane s p.identifier).children
    ∧ prior ∉ (updatePlane supply s p).children := by
  obtain ⟨hg1, hnt, _⟩ := goodState_removePlane s p.identifier hgood
  have hnone : mapGet (removePlane s p.identifier).planes p.identifier = none :=
    mapGet_removePlane_self s p.identifier
  have hg2 : GoodState (updatePlane supply s p) :=
    goodState_addPlane supply _ p hg1 hnone
  obtain ⟨hal, hkeys, htags, hlt⟩ := hgood
  have hptag : prior.tag < s.nextTag := hlt (p.identifier, prior) (mapGet_mem _ _ _ hprior)
  have hchildnodup : s.children.Nodup := by
    have hmapeq : s.children.map (fun c => c.tag) = s.planes.map (fun kv => kv.2.tag) := by
      rw [hal, List.map_map]
      rfl
    exact List.Nodup.of_map _ (hmapeq ▸ htags)
  have h1 : prior ∉ (removePlane s p.identifier).children := by
    rw [removePlane_eq_some s p.identifier prior hprior]
    exact not_mem_removeChild_self s.children prior hchildnodup
  refine ⟨hg2, h1, ?_⟩
  rcases addPlane_children supply (removePlane s p.identifier) p with heq | ⟨obj, htag, heq⟩
  · rw [show updatePlane supply s p = addPlane supply (removePlane s p.identifier) p from rfl,
        heq]
    exact h1
  · rw [show updatePlane supply s p = addPlane supply (removePlane s p.identifier) p from rfl,
        heq]
    intro hmem
    rcases List.mem_append.mp hmem with hmem1 | hmem2
    · exact h1 hmem1
    · rw [List.mem_singleton] at hmem2
      subst hmem2
      rw [hnt] at htag
      exact absurd htag (Nat.ne_of_lt hptag)

/-- Witness for C2 (amended): the concrete one-entry state stays consistent
through a remove-then-upsert of a new plane for the same identifier. -/
theorem c2_no_dangling_witness :
    GoodState (updatePlane supplyTest (addPlane supplyTest initialState pTest) pQuad) :=
  (c2_no_dangling supplyTest (addPlane supplyTest initialState pTest) pQuad _
    (by decide) rfl).1
